import Mathlib

set_option maxHeartbeats 1000000

/-!
Verification of the question-pool CSV validator (`src/utilities/csv.ts`):
a shallow embedding of `parseCsvLineWithErrors` and `validateCsvString`
over `List Char`, together with theorems settling the specified
properties of the tokenizer and the document validator.
-/

namespace QuestionPoolCsv

/-- One reported defect: 1-based physical line, 1-based field index
(0 meaning the row as a whole) and the message text.  Mirrors
`CsvFieldValidationError` from csv.ts. -/
structure Finding where
  line : Nat
  field : Nat
  error : String
deriving DecidableEq, Repr

/-- Name used for a field in error messages: the header entry at that 0-based
index when present, else the positional placeholder, as in
`header?.[idx] ?? ('#' + (idx + 1))`. -/
def headerNameAt (header : List (List Char)) (idx : Nat) : String :=
  match header.get? idx with
  | some n => String.mk n
  | none => "#" ++ toString (idx + 1)

/-- Parse-error entry pushed when a quote is met inside an unquoted non-empty
field (csv.ts lines 70-75). -/
def unescapedQuoteEntry (header : List (List Char)) (fieldIndex : Nat) : String × Nat :=
  ("[" ++ headerNameAt header fieldIndex ++ "] Unescaped quote found in unquoted field",
   fieldIndex + 1)

/-- Parse-error entry of the post-loop unclosed-quote check (csv.ts lines 83-90).
The source reads `header?.[fieldIndex - 1]` with the placeholder `'#' + fieldIndex`;
at `fieldIndex = 0` the JS index `-1` is undefined, hence the placeholder `#0`. -/
def unclosedQuoteEntry (header : List (List Char)) (fieldIndex : Nat) : String × Nat :=
  ("[" ++ (match fieldIndex with
           | 0 => "#" ++ toString (0 : Nat)
           | n + 1 => headerNameAt header n) ++ "] Unclosed quoted field",
   fieldIndex)

/-- Global left-to-right replacement of a doubled quote by a single quote,
as `value.replace(/""/g, '"')` does. -/
def collapseDoubledQuotes : List Char → List Char
  | '"' :: '"' :: rest => '"' :: collapseDoubledQuotes rest
  | c :: rest => c :: collapseDoubledQuotes rest
  | [] => []

/-- Unescaping applied to the buffered value of a field that was opened with a
quote (csv.ts lines 41-46): when the buffer itself starts and ends with a quote,
strip them and collapse doubled quotes. -/
def unescapeQuoted (value : List Char) : List Char :=
  if value.head? = some '"' ∧ value.getLast? = some '"' then
    collapseDoubledQuotes ((value.drop 1).dropLast)
  else value

/-- Output of the tokenizer scan loop, including the state the loop exits with,
which the post-loop unclosed-quote check inspects. -/
structure TokOut where
  row : List (List Char)
  parseErrors : List (String × Nat)
  quotedFields : List Bool
  originalFields : List (List Char)
  finalInQuotes : Bool
  finalFieldIndex : Nat
deriving DecidableEq, Repr

/-- The scan loop of `parseCsvLineWithErrors` (csv.ts lines 32-81).  The source
walks an index `i` from `0` to `line.length` inclusive; here the unread suffix of
the line (characters from position `i` on) is the recursion argument, while `i`,
`fieldIndex`, `inQuotes`, `fieldQuoted`, `current` and `fieldStart` mirror the
loop variables.  The `[]` case is the iteration at `i = line.length`: the
end-of-field branch runs (its guard `i === line.length` holds), flushing the last
field and resetting `inQuotes` (source line 53) before the loop exits, and the
exit state is returned in `finalInQuotes` / `finalFieldIndex`.  The index `i` can
never skip past `line.length`, because the two-character escaped-quote step
requires `line[i + 1]` to be a quote and hence within the line.  The
escaped-quote case (`inQuotes && line[i + 1] === '"'`, source lines 64-66) is the
second pattern: when in quotes, a quote is neither the flush comma nor an opening
quote, so the source reaches its doubled-quote test exactly there. -/
def tokLoop (line : List Char) (header : List (List Char)) :
    List Char → Nat → Nat → Bool → Bool → List Char → Nat → TokOut
  | [], i, fieldIndex, _inQuotes, fieldQuoted, current, fieldStart =>
      let originalField := (line.drop fieldStart).take (i - fieldStart)
      let value := if fieldQuoted then unescapeQuoted current else current
      { row := [value], parseErrors := [], quotedFields := [fieldQuoted],
        originalFields := [originalField],
        finalInQuotes := false, finalFieldIndex := fieldIndex + 1 }
  | '"' :: '"' :: rest2, i, fieldIndex, true, fieldQuoted, current, fieldStart =>
      tokLoop line header rest2 (i + 2) fieldIndex true fieldQuoted
        (current ++ ['"']) fieldStart
  | c :: rest, i, fieldIndex, inQuotes, fieldQuoted, current, fieldStart =>
      if c = ',' ∧ inQuotes = false then
        let originalField := (line.drop fieldStart).take (i - fieldStart)
        let value := if fieldQuoted then unescapeQuoted current else current
        let r := tokLoop line header rest (i + 1) (fieldIndex + 1) false false [] (i + 1)
        { row := value :: r.row, parseErrors := r.parseErrors,
          quotedFields := fieldQuoted :: r.quotedFields,
          originalFields := originalField :: r.originalFields,
          finalInQuotes := r.finalInQuotes, finalFieldIndex := r.finalFieldIndex }
      else if c = '"' then
        if inQuotes = false ∧ current = [] then
          tokLoop line header rest (i + 1) fieldIndex true true current fieldStart
        else if inQuotes = true then
          tokLoop line header rest (i + 1) fieldIndex false fieldQuoted current fieldStart
        else
          let r := tokLoop line header rest (i + 1) fieldIndex inQuotes fieldQuoted
            current fieldStart
          { r with parseErrors := unescapedQuoteEntry header fieldIndex :: r.parseErrors }
      else
        tokLoop line header rest (i + 1) fieldIndex inQuotes fieldQuoted
          (current ++ [c]) fieldStart

/-- Result record of `parseCsvLineWithErrors`. -/
structure ParseResult where
  row : List (List Char)
  parseErrors : List (String × Nat)
  quotedFields : List Bool
  originalFields : List (List Char)
deriving DecidableEq, Repr

/-- The tokenizer `parseCsvLineWithErrors` (csv.ts lines 11-93): the scan loop over
the whole line followed by the post-loop unclosed-quoted-field check on the state
the loop exited with. -/
def parseCsvLineWithErrors (line : List Char) (header : List (List Char)) : ParseResult :=
  let o := tokLoop line header line 0 0 false false [] 0
  { row := o.row,
    parseErrors := o.parseErrors ++
      (if o.finalInQuotes = true then [unclosedQuoteEntry header o.finalFieldIndex] else []),
    quotedFields := o.quotedFields,
    originalFields := o.originalFields }

/-- Whitespace trim from both ends, as `String.prototype.trim`. -/
def trimChars (cs : List Char) : List Char :=
  ((cs.dropWhile Char.isWhitespace).reverse.dropWhile Char.isWhitespace).reverse

/-- Character-wise upper-casing, as `String.prototype.toUpperCase` on the ASCII
values the validator compares against. -/
def toUpperChars (cs : List Char) : List Char := cs.map Char.toUpper

/-- Splitting on `/\r?\n/`: a line break is `\r\n` or a bare `\n`; a bare `\r`
stays inside its line.  The accumulator holds the current line reversed. -/
def splitLinesAux : List Char → List Char → List (List Char)
  | [], cur => [cur.reverse]
  | '\r' :: '\n' :: rest, cur => cur.reverse :: splitLinesAux rest []
  | '\n' :: rest, cur => cur.reverse :: splitLinesAux rest []
  | c :: rest, cur => splitLinesAux rest (c :: cur)

/-- Physical lines of the document, `csvContent.split(/\r?\n/)`. -/
def splitLines (cs : List Char) : List (List Char) := splitLinesAux cs []

/-- Decimal value of a non-empty all-digit character list, else `none`;
the `(\d+)` capture with `parseInt(-, 10)`. -/
def digitsValue? (cs : List Char) : Option Nat :=
  if cs ≠ [] ∧ cs.all Char.isDigit then
    some (cs.foldl (fun a c => 10 * a + (c.toNat - 48)) 0)
  else none

/-- Case-insensitive match of a trimmed header name against
`^<pre><digits>$` returning the numeric suffix, for the patterns
`/^choice(\d+)$/i` and `/^correct(\d+)$/i`; `pre` is given lowercase. -/
def matchSuffixNum (pre : List Char) (name : List Char) : Option Nat :=
  let t := (trimChars name).map Char.toLower
  if t.take pre.length = pre then digitsValue? (t.drop pre.length) else none

/-- Insertion into an association list kept sorted by ascending numeric key,
replacing an existing entry: models the assignment `map[x] = idx` on a JS object
with integer-like keys, whose `for...in` enumeration is in ascending key order. -/
def insertSorted (x v : Nat) : List (Nat × Nat) → List (Nat × Nat)
  | [] => [(x, v)]
  | (y, w) :: rest =>
      if x < y then (x, v) :: (y, w) :: rest
      else if x = y then (x, v) :: rest
      else (y, w) :: insertSorted x v rest

/-- The map from numeric suffix to field index built by the `header.forEach`
pass for one of the two prefixes (csv.ts lines 121-133). -/
def buildFieldMap (pre : List Char) (header : List (List Char)) : List (Nat × Nat) :=
  (List.range header.length).foldl
    (fun m idx =>
      match matchSuffixNum pre (header.getD idx []) with
      | some x => insertSorted x idx m
      | none => m) []

/-- Header-derived read-only state of the validator: expected field count, header
names, `correct<N>` field indexes, and the two suffix-to-index maps. -/
structure Schema where
  expectedNumFields : Nat
  header : List (List Char)
  correctFieldIndexes : List Nat
  choiceFieldMap : List (Nat × Nat)
  correctFieldMap : List (Nat × Nat)
deriving DecidableEq, Repr

/-- Schema establishment from the first non-blank line (csv.ts lines 113-133). -/
def buildSchema (row : List (List Char)) : Schema :=
  { expectedNumFields := row.length,
    header := row,
    correctFieldIndexes :=
      (List.range row.length).filter fun idx =>
        (matchSuffixNum "correct".data (row.getD idx [])).isSome,
    choiceFieldMap := buildFieldMap "choice".data row,
    correctFieldMap := buildFieldMap "correct".data row }

/-- Test of a parsed value against `/(^|[^"])""(?!")/`: is there a doubled quote
preceded by start-of-string or a non-quote and not followed by a quote.  The
second argument carries the previously read character. -/
def loneDQAux : List Char → Option Char → Bool
  | [], _ => false
  | c :: rest, prev =>
      if c = '"' ∧ rest.head? = some '"' ∧ prev ≠ some '"' ∧ rest.tail.head? ≠ some '"' then
        true
      else loneDQAux rest (some c)

/-- Whole-string form of the lone-doubled-quote test. -/
def loneDoubleQuote (cs : List Char) : Bool := loneDQAux cs none

/-- Row-count consistency check (csv.ts lines 134-140), which in the source is the
`else` of schema establishment and hence skipped on the header line itself. -/
def rowCountFindings (sch : Schema) (i : Nat) (row : List (List Char)) : List Finding :=
  if row.length ≠ sch.expectedNumFields then
    [⟨i + 1, 0, "[Row] Inconsistent number of fields: expected " ++
        toString sch.expectedNumFields ++ ", got " ++ toString row.length⟩]
  else []

/-- Per-field content checks (csv.ts lines 142-172): must-be-quoted, improperly
escaped doubled quotes, and the 1000-character length cap. -/
def fieldFindings (header : List (List Char)) (i : Nat)
    (row : List (List Char)) (quotedFields : List Bool) : List Finding :=
  (List.range row.length).flatMap fun j =>
    let field := row.getD j []
    let quoted := quotedFields.getD j false
    let fieldName := headerNameAt header j
    (if (',' ∈ field ∨ '\r' ∈ field ∨ '\n' ∈ field ∨ '"' ∈ field) ∧ quoted = false then
       [⟨i + 1, j + 1,
         "[" ++ fieldName ++ "] Field containing comma, CR, LF, or double quote must be quoted"⟩]
     else []) ++
    (if quoted = true ∧ loneDoubleQuote field = true then
       [⟨i + 1, j + 1, "[" ++ fieldName ++ "] Field has improperly escaped double quotes"⟩]
     else []) ++
    (if field.length > 1000 then
       [⟨i + 1, j + 1, "[" ++ fieldName ++ "] Field exceeds maximum length of 1000 characters (actual: "
           ++ toString field.length ++ ")"⟩]
     else [])

/-- Correctness-flag checks on the `correct<N>` fields (csv.ts lines 174-196),
guarded by `headerChecked && correctFieldIndexes.length > 0 && i > 0` where `i` is
the physical 0-based line index: each value must be blank, TRUE or FALSE, and at
least one must be TRUE. -/
def correctnessFindings (sch : Schema) (i : Nat) (row : List (List Char)) : List Finding :=
  if 0 < i ∧ sch.correctFieldIndexes ≠ [] then
    (sch.correctFieldIndexes.flatMap fun idx =>
      let val := toUpperChars (trimChars (row.getD idx []))
      if val ≠ [] ∧ val ≠ "TRUE".data ∧ val ≠ "FALSE".data then
        [⟨i + 1, idx + 1,
          "[" ++ String.mk (sch.header.getD idx []) ++ "] Value must be either TRUE or FALSE"⟩]
      else []) ++
    (if sch.correctFieldIndexes.any
        (fun idx => toUpperChars (trimChars (row.getD idx [])) == "TRUE".data) then
       []
     else [⟨i + 1, 0, "[Row] At least one correct\x7bx\x7d field must be TRUE"⟩])
  else []

/-- Pairing check, first direction (csv.ts lines 198-217): for every entry of the
choice map whose suffix also has a correct column, a non-blank choice with a blank
correct is reported against the correct field's index. -/
def choicePairFindings (sch : Schema) (i : Nat) (row : List (List Char)) : List Finding :=
  if 0 < i then
    sch.choiceFieldMap.flatMap fun p =>
      match List.lookup p.1 sch.correctFieldMap with
      | some correctIdx =>
          if trimChars (row.getD p.2 []) ≠ [] ∧ trimChars (row.getD correctIdx []) = [] then
            [⟨i + 1, correctIdx + 1,
              "[correct" ++ toString p.1 ++ "] Field must not be empty when choice"
                ++ toString p.1 ++ " is not empty"⟩]
          else []
      | none => []
  else []

/-- Pairing check, second direction (csv.ts lines 219-238): a non-blank correct
with a blank choice is reported against the choice field's index. -/
def correctPairFindings (sch : Schema) (i : Nat) (row : List (List Char)) : List Finding :=
  if 0 < i then
    sch.correctFieldMap.flatMap fun p =>
      match List.lookup p.1 sch.choiceFieldMap with
      | some choiceIdx =>
          if trimChars (row.getD p.2 []) ≠ [] ∧ trimChars (row.getD choiceIdx []) = [] then
            [⟨i + 1, choiceIdx + 1,
              "[choice" ++ toString p.1 ++ "] Field must not be empty when correct"
                ++ toString p.1 ++ " is not empty"⟩]
          else []
      | none => []
  else []

/-- All findings the validator pushes for one non-blank line, in the push order of
the source: row count (skipped on the schema-establishing line), per-field content
checks, correctness flags, the two pairing directions, then the tokenizer's parse
errors. -/
def processLine (sch : Schema) (isHeaderLine : Bool) (i : Nat) (row : List (List Char))
    (quotedFields : List Bool) (parseErrors : List (String × Nat)) : List Finding :=
  (if isHeaderLine = true then [] else rowCountFindings sch i row) ++
  fieldFindings sch.header i row quotedFields ++
  correctnessFindings sch i row ++
  choicePairFindings sch i row ++
  correctPairFindings sch i row ++
  parseErrors.map fun p => ⟨i + 1, p.2, p.1⟩

/-- The validator's line loop (csv.ts lines 105-248): blank lines are skipped but
keep their physical index; the first non-blank line establishes the schema, is
exempt from the row-count check, and is tokenized with the not-yet-established
(empty) header. -/
def processLines : Option Schema → Nat → List (List Char) → List Finding
  | _, _, [] => []
  | st, i, line :: rest =>
      if trimChars line = [] then processLines st (i + 1) rest
      else
        match st with
        | none =>
            let pr := parseCsvLineWithErrors line []
            let sch := buildSchema pr.row
            processLine sch true i pr.row pr.quotedFields pr.parseErrors ++
              processLines (some sch) (i + 1) rest
        | some sch =>
            let pr := parseCsvLineWithErrors line sch.header
            processLine sch false i pr.row pr.quotedFields pr.parseErrors ++
              processLines (some sch) (i + 1) rest

/-- The document validator `validateCsvString` (csv.ts lines 95-250). -/
def validateCsvString (csvContent : String) : List Finding :=
  processLines none 0 (splitLines csvContent.data)

/-- Count of the commas of a line that fall outside quoted regions: a reduced
scan tracking only the in-quote flag and whether the field buffer is still empty
(a quote opens a quoted region only on an empty buffer; a doubled quote inside a
quoted region is one escaped character). -/
def countAux : List Char → Bool → Bool → Nat
  | [], _, _ => 0
  | '"' :: '"' :: rest2, true, _ => countAux rest2 true false
  | c :: rest, inQuotes, curEmpty =>
      if c = ',' ∧ inQuotes = false then countAux rest false true + 1
      else if c = '"' then
        if inQuotes = false ∧ curEmpty = true then countAux rest true curEmpty
        else if inQuotes = true then countAux rest false curEmpty
        else countAux rest inQuotes curEmpty
      else countAux rest inQuotes false

/-- Number of commas of the line outside quoted regions. -/
def countUnquotedCommas (line : List Char) : Nat := countAux line false true

/-- Joining of field substrings with single comma separators. -/
def joinComma : List (List Char) → List Char
  | [] => []
  | [x] => x
  | x :: xs => x ++ ',' :: joinComma xs

/-- Shape of an unescaped-quote parse-error entry, as a function of the field
name and the 1-based field index it is tagged with. -/
def unescapedShaped (q : String × Nat) : String × Nat :=
  ("[" ++ q.1 ++ "] Unescaped quote found in unquoted field", q.2)


theorem isEmpty_append_singleton (l : List Char) (c : Char) : (l ++ [c]).isEmpty = false := by
  cases l <;> rfl

theorem tokLoop_row_length (line : List Char) (header : List (List Char)) :
    ∀ (rest : List Char) (i fieldIndex : Nat) (inQuotes fieldQuoted : Bool)
      (current : List Char) (fieldStart : Nat),
    (tokLoop line header rest i fieldIndex inQuotes fieldQuoted current fieldStart).row.length
      = countAux rest inQuotes current.isEmpty + 1 := by
  intro rest i fieldIndex inQuotes fieldQuoted current fieldStart
  induction rest, i, fieldIndex, inQuotes, fieldQuoted, current, fieldStart
    using tokLoop.induct line header
  case case7 c rest i fieldIndex inQuotes fieldQuoted current fieldStart hov h1 h2 ih =>
    simp only [tokLoop, countAux, isEmpty_append_singleton] at ih ⊢
    rw [if_neg h1, if_neg h1, if_neg h2, if_neg h2]
    exact ih
  all_goals simp_all [tokLoop, countAux, isEmpty_append_singleton]

theorem tokLoop_originalFields_ne_nil (line : List Char) (header : List (List Char)) :
    ∀ (rest : List Char) (i fieldIndex : Nat) (inQuotes fieldQuoted : Bool)
      (current : List Char) (fieldStart : Nat),
    (tokLoop line header rest i fieldIndex inQuotes fieldQuoted current fieldStart).originalFields
      ≠ [] := by
  intro rest i fieldIndex inQuotes fieldQuoted current fieldStart
  induction rest, i, fieldIndex, inQuotes, fieldQuoted, current, fieldStart
    using tokLoop.induct line header
  case case7 c rest i fieldIndex inQuotes fieldQuoted current fieldStart hov h1 h2 ih =>
    simp only [tokLoop] at ih ⊢
    rw [if_neg h1, if_neg h2]
    exact ih
  all_goals simp_all [tokLoop]

theorem joinComma_cons (x : List Char) (xs : List (List Char)) (h : xs ≠ []) :
    joinComma (x :: xs) = x ++ ',' :: joinComma xs := by
  cases xs with
  | nil => exact absurd rfl h
  | cons y ys => rfl

theorem tokLoop_join_originalFields (line : List Char) (header : List (List Char)) :
    ∀ (rest : List Char) (i fieldIndex : Nat) (inQuotes fieldQuoted : Bool)
      (current : List Char) (fieldStart : Nat),
    rest = line.drop i → fieldStart ≤ i →
    joinComma
        (tokLoop line header rest i fieldIndex inQuotes fieldQuoted current fieldStart).originalFields
      = line.drop fieldStart := by
  intro rest i fieldIndex inQuotes fieldQuoted current fieldStart
  induction rest, i, fieldIndex, inQuotes, fieldQuoted, current, fieldStart
    using tokLoop.induct line header
  case case1 i fieldIndex inQuotes fieldQuoted current fieldStart =>
    intro hdrop hle
    simp only [tokLoop, joinComma]
    have hlen : line.length ≤ i := by
      by_contra hlt
      push_neg at hlt
      have := List.drop_eq_nil_iff.mp hdrop.symm
      omega
    apply List.take_of_length_le
    simp only [List.length_drop]
    omega
  case case2 rest2 i fieldIndex fieldQuoted current fieldStart ih =>
    intro hdrop hle
    have hrest : rest2 = line.drop (i + 2) := by
      have h2 := congrArg (List.drop 2) hdrop
      simpa [List.drop_drop, Nat.add_comm] using h2
    simp only [tokLoop]
    exact ih hrest (by omega)
  case case3 c rest i fieldIndex inQuotes fieldQuoted current fieldStart hov h ih =>
    intro hdrop hle
    obtain ⟨hc, hq⟩ := h
    subst hc; subst hq
    have hrest : rest = line.drop (i + 1) := by
      have h1 := congrArg (List.drop 1) hdrop
      simpa [List.drop_drop, Nat.add_comm] using h1
    have hne := tokLoop_originalFields_ne_nil line header rest (i + 1) (fieldIndex + 1)
      false false [] (i + 1)
    simp only [tokLoop, and_self, if_true, ite_true]
    rw [joinComma_cons _ _ hne, ih hrest (le_refl _)]
    have h1 : line.drop fieldStart
        = (line.drop fieldStart).take (i - fieldStart) ++ (line.drop fieldStart).drop (i - fieldStart) :=
      (List.take_append_drop _ _).symm
    have h2 : (line.drop fieldStart).drop (i - fieldStart) = line.drop i := by
      rw [List.drop_drop]
      congr 1
      omega
    conv_rhs => rw [h1]
    rw [h2, ← hdrop, hrest]
  case case4 rest i fieldIndex inQuotes fieldQuoted current fieldStart hpos hov hneg ih =>
    intro hdrop hle
    have hrest : rest = line.drop (i + 1) := by
      have h1 := congrArg (List.drop 1) hdrop
      simpa [List.drop_drop, Nat.add_comm] using h1
    obtain ⟨hq, hcur⟩ := hpos
    subst hq; subst hcur
    simp [tokLoop]
    exact ih hrest (by omega)
  case case5 rest i fieldIndex fieldQuoted current fieldStart h1 hov h2 ih =>
    intro hdrop hle
    have hrest : rest = line.drop (i + 1) := by
      have hd := congrArg (List.drop 1) hdrop
      simpa [List.drop_drop, Nat.add_comm] using hd
    simp [tokLoop]
    exact ih hrest (by omega)
  case case6 rest i fieldIndex inQuotes fieldQuoted current fieldStart h2 h1 hov h0 ih =>
    intro hdrop hle
    have hrest : rest = line.drop (i + 1) := by
      have hd := congrArg (List.drop 1) hdrop
      simpa [List.drop_drop, Nat.add_comm] using hd
    cases inQuotes with
    | true => simp at h1
    | false =>
        simp only [eq_self_iff_true, true_and, not_true, not_false_iff] at h2
        simp [tokLoop, h2]
        exact ih hrest (by omega)
  case case7 c rest i fieldIndex inQuotes fieldQuoted current fieldStart hov h1 h2 ih =>
    intro hdrop hle
    have hrest : rest = line.drop (i + 1) := by
      have hd := congrArg (List.drop 1) hdrop
      simpa [List.drop_drop, Nat.add_comm] using hd
    simp only [tokLoop]
    rw [if_neg h1, if_neg h2]
    exact ih hrest (by omega)

theorem tokLoop_finalInQuotes_false (line : List Char) (header : List (List Char)) :
    ∀ (rest : List Char) (i fieldIndex : Nat) (inQuotes fieldQuoted : Bool)
      (current : List Char) (fieldStart : Nat),
    (tokLoop line header rest i fieldIndex inQuotes fieldQuoted current fieldStart).finalInQuotes
      = false := by
  intro rest i fieldIndex inQuotes fieldQuoted current fieldStart
  induction rest, i, fieldIndex, inQuotes, fieldQuoted, current, fieldStart
    using tokLoop.induct line header
  case case7 c rest i fieldIndex inQuotes fieldQuoted current fieldStart hov h1 h2 ih =>
    simp only [tokLoop]
    rw [if_neg h1, if_neg h2]
    exact ih
  all_goals simp_all [tokLoop]

theorem tokLoop_parseErrors_shape (line : List Char) (header : List (List Char)) :
    ∀ (rest : List Char) (i fieldIndex : Nat) (inQuotes fieldQuoted : Bool)
      (current : List Char) (fieldStart : Nat),
    ∃ pairs : List (String × Nat),
      (tokLoop line header rest i fieldIndex inQuotes fieldQuoted current fieldStart).parseErrors
        = pairs.map unescapedShaped := by
  intro rest i fieldIndex inQuotes fieldQuoted current fieldStart
  induction rest, i, fieldIndex, inQuotes, fieldQuoted, current, fieldStart
    using tokLoop.induct line header
  case case1 i fieldIndex inQuotes fieldQuoted current fieldStart =>
    exact ⟨[], by simp [tokLoop]⟩
  case case2 rest2 i fieldIndex fieldQuoted current fieldStart ih =>
    obtain ⟨pairs, hp⟩ := ih
    exact ⟨pairs, by simpa [tokLoop] using hp⟩
  case case3 c rest i fieldIndex inQuotes fieldQuoted current fieldStart hov h ih =>
    obtain ⟨hc, hq⟩ := h
    subst hc; subst hq
    obtain ⟨pairs, hp⟩ := ih
    exact ⟨pairs, by simpa [tokLoop] using hp⟩
  case case4 rest i fieldIndex inQuotes fieldQuoted current fieldStart hpos hov hneg ih =>
    obtain ⟨hq, hcur⟩ := hpos
    subst hq; subst hcur
    obtain ⟨pairs, hp⟩ := ih
    exact ⟨pairs, by simpa [tokLoop] using hp⟩
  case case5 rest i fieldIndex fieldQuoted current fieldStart h1 hov h2 ih =>
    obtain ⟨pairs, hp⟩ := ih
    exact ⟨pairs, by simpa [tokLoop] using hp⟩
  case case6 rest i fieldIndex inQuotes fieldQuoted current fieldStart h2 h1 hov h0 ih =>
    cases inQuotes with
    | true => simp at h1
    | false =>
        simp only [eq_self_iff_true, true_and, not_true, not_false_iff] at h2
        obtain ⟨pairs, hp⟩ := ih
        refine ⟨(headerNameAt header fieldIndex, fieldIndex + 1) :: pairs, ?_⟩
        simp [tokLoop, h2, hp, unescapedShaped, unescapedQuoteEntry]
  case case7 c rest i fieldIndex inQuotes fieldQuoted current fieldStart hov h1 h2 ih =>
    obtain ⟨pairs, hp⟩ := ih
    refine ⟨pairs, ?_⟩
    simp only [tokLoop]
    rw [if_neg h1, if_neg h2]
    exact hp

theorem parseCsvLineWithErrors_errors_shape (line : List Char) (header : List (List Char)) :
    ∃ pairs : List (String × Nat),
      (parseCsvLineWithErrors line header).parseErrors = pairs.map unescapedShaped := by
  obtain ⟨pairs, hp⟩ := tokLoop_parseErrors_shape line header line 0 0 false false [] 0
  refine ⟨pairs, ?_⟩
  simp [parseCsvLineWithErrors, tokLoop_finalInQuotes_false, hp]

theorem mem_ite_singleton {c : Prop} [Decidable c] {x f : Finding}
    (h : f ∈ (if c then [x] else ([] : List Finding))) : f = x := by
  split at h
  · simpa using h
  · simp at h

theorem mem_ite_nil_singleton {c : Prop} [Decidable c] {x f : Finding}
    (h : f ∈ (if c then ([] : List Finding) else [x])) : f = x := by
  split at h
  · simp at h
  · simpa using h

theorem line_of_mem_rowCountFindings {sch : Schema} {i : Nat} {row : List (List Char)}
    {f : Finding} (h : f ∈ rowCountFindings sch i row) : f.line = i + 1 := by
  unfold rowCountFindings at h
  obtain rfl := mem_ite_singleton h
  rfl

theorem line_of_mem_fieldFindings {header : List (List Char)} {i : Nat}
    {row : List (List Char)} {quotedFields : List Bool} {f : Finding}
    (h : f ∈ fieldFindings header i row quotedFields) : f.line = i + 1 := by
  simp only [fieldFindings, List.mem_flatMap] at h
  obtain ⟨j, hj, h⟩ := h
  simp only [List.mem_append] at h
  rcases h with (h | h) | h
  all_goals obtain rfl := mem_ite_singleton h
  all_goals rfl

theorem line_of_mem_correctnessFindings {sch : Schema} {i : Nat} {row : List (List Char)}
    {f : Finding} (h : f ∈ correctnessFindings sch i row) : f.line = i + 1 := by
  unfold correctnessFindings at h
  split at h
  · simp only [List.mem_append, List.mem_flatMap] at h
    rcases h with ⟨idx, hidx, h⟩ | h
    · obtain rfl := mem_ite_singleton h
      rfl
    · obtain rfl := mem_ite_nil_singleton h
      rfl
  · simp at h

theorem line_of_mem_choicePairFindings {sch : Schema} {i : Nat} {row : List (List Char)}
    {f : Finding} (h : f ∈ choicePairFindings sch i row) : f.line = i + 1 := by
  unfold choicePairFindings at h
  split at h
  · simp only [List.mem_flatMap] at h
    obtain ⟨p, hp, h⟩ := h
    cases hl : List.lookup p.1 sch.correctFieldMap with
    | some k =>
        rw [hl] at h
        obtain rfl := mem_ite_singleton h
        rfl
    | none =>
        rw [hl] at h
        simp at h
  · simp at h

theorem line_of_mem_correctPairFindings {sch : Schema} {i : Nat} {row : List (List Char)}
    {f : Finding} (h : f ∈ correctPairFindings sch i row) : f.line = i + 1 := by
  unfold correctPairFindings at h
  split at h
  · simp only [List.mem_flatMap] at h
    obtain ⟨p, hp, h⟩ := h
    cases hl : List.lookup p.1 sch.choiceFieldMap with
    | some k =>
        rw [hl] at h
        obtain rfl := mem_ite_singleton h
        rfl
    | none =>
        rw [hl] at h
        simp at h
  · simp at h

theorem line_of_mem_processLine {sch : Schema} {b : Bool} {i : Nat}
    {row : List (List Char)} {quotedFields : List Bool}
    {parseErrors : List (String × Nat)} {f : Finding}
    (h : f ∈ processLine sch b i row quotedFields parseErrors) : f.line = i + 1 := by
  unfold processLine at h
  simp only [List.mem_append] at h
  rcases h with ((((h | h) | h) | h) | h) | h
  · split at h
    · simp at h
    · exact line_of_mem_rowCountFindings h
  · exact line_of_mem_fieldFindings h
  · exact line_of_mem_correctnessFindings h
  · exact line_of_mem_choicePairFindings h
  · exact line_of_mem_correctPairFindings h
  · simp only [List.mem_map] at h
    obtain ⟨p, hp, rfl⟩ := h
    rfl

theorem line_lb_of_mem_processLines :
    ∀ (ls : List (List Char)) (st : Option Schema) (i : Nat) (f : Finding),
    f ∈ processLines st i ls → i + 1 ≤ f.line := by
  intro ls
  induction ls with
  | nil =>
      intro st i f h
      simp [processLines] at h
  | cons line rest ih =>
      intro st i f h
      unfold processLines at h
      split at h
      · have := ih st (i + 1) f h
        omega
      · cases st with
        | none =>
            simp only [List.mem_append] at h
            rcases h with h | h
            · exact Nat.le_of_eq (line_of_mem_processLine h).symm
            · have := ih _ (i + 1) f h
              omega
        | some sch =>
            simp only [List.mem_append] at h
            rcases h with h | h
            · exact Nat.le_of_eq (line_of_mem_processLine h).symm
            · have := ih _ (i + 1) f h
              omega

theorem pairwise_of_const_line (l : List Finding) (n : Nat)
    (h : ∀ f ∈ l, f.line = n) : l.Pairwise (fun a b => a.line ≤ b.line) := by
  induction l with
  | nil => exact List.Pairwise.nil
  | cons x xs ih =>
      refine List.Pairwise.cons ?_ (ih ?_)
      · intro b hb
        rw [h x (by simp), h b (by simp [hb])]
      · intro g hg
        exact h g (by simp [hg])

theorem processLines_pairwise_line :
    ∀ (ls : List (List Char)) (st : Option Schema) (i : Nat),
    (processLines st i ls).Pairwise (fun a b => a.line ≤ b.line) := by
  intro ls
  induction ls with
  | nil =>
      intro st i
      simp [processLines]
  | cons line rest ih =>
      intro st i
      unfold processLines
      split
      · exact ih st (i + 1)
      · cases st with
        | none =>
            rw [List.pairwise_append]
            refine ⟨pairwise_of_const_line _ (i + 1) (fun f hf => line_of_mem_processLine hf),
              ih _ (i + 1), ?_⟩
            intro a ha b hb
            rw [line_of_mem_processLine ha]
            have := line_lb_of_mem_processLines rest _ (i + 1) b hb
            omega
        | some sch =>
            rw [List.pairwise_append]
            refine ⟨pairwise_of_const_line _ (i + 1) (fun f hf => line_of_mem_processLine hf),
              ih _ (i + 1), ?_⟩
            intro a ha b hb
            rw [line_of_mem_processLine ha]
            have := line_lb_of_mem_processLines rest _ (i + 1) b hb
            omega

theorem getD_replicate_nil : ∀ (k n : Nat),
    (List.replicate k ([] : List Char)).getD n [] = [] := by
  intro k
  induction k with
  | zero =>
      intro n
      simp [List.getD]
  | succ k ih =>
      intro n
      cases n with
      | zero => rfl
      | succ n => exact ih n

theorem getD_append_replicate_nil : ∀ (row : List (List Char)) (k n : Nat),
    (row ++ List.replicate k ([] : List Char)).getD n [] = row.getD n [] := by
  intro row
  induction row with
  | nil =>
      intro k n
      exact getD_replicate_nil k n
  | cons a row ih =>
      intro k n
      cases n with
      | zero => rfl
      | succ n => exact ih k n

theorem joinComma_eq_intercalate : ∀ xs : List (List Char),
    joinComma xs = List.intercalate [','] xs := by
  intro xs
  induction xs with
  | nil => simp [joinComma, List.intercalate]
  | cons x xs ih =>
      cases xs with
      | nil => simp [joinComma, List.intercalate]
      | cons y ys =>
          have hstep : joinComma (x :: y :: ys) = x ++ ',' :: joinComma (y :: ys) := rfl
          rw [hstep, ih]
          simp [List.intercalate, List.intersperse_cons_cons]

/-- C1: the claim says a line ending inside an open quote yields exactly one
"Unclosed quoted field" parse error against the last field index, with a
best-effort value still returned.  In the code the end-of-line field flush
(csv.ts lines 50-56) resets `inQuotes` before the post-loop check at lines
83-90 can see it, so that check is dead: every parse error the tokenizer ever
emits is of the unescaped-quote shape, and on the line `"unterminated` the
tokenizer reports no parse error at all, while still returning the best-effort
field value. -/
theorem C1_unclosed_quote_check_dead :
    (∀ (line : List Char) (header : List (List Char)),
      ∃ pairs : List (String × Nat),
        (parseCsvLineWithErrors line header).parseErrors = pairs.map unescapedShaped) ∧
    (parseCsvLineWithErrors "\"unterminated".data []).parseErrors = [] ∧
    (parseCsvLineWithErrors "\"unterminated".data []).row = ["unterminated".data] ∧
    (parseCsvLineWithErrors "\"unterminated".data []).quotedFields = [true] :=
  ⟨fun line header => parseCsvLineWithErrors_errors_shape line header, rfl, rfl, rfl⟩

/-- C2, counterexample: on the document `id,choice1,correct1` / `1,yes,` the
validator does not return exactly the single field-3 Finding the claim
describes (it returns two Findings). -/
theorem C2_counterexample :
    validateCsvString "id,choice1,correct1\n1,yes," ≠
      [⟨2, 3, "[correct1] Field must not be empty when choice1 is not empty"⟩] := by
  decide

/-- C2, amended: that document yields exactly two Findings, in this order: the
row-level at-least-one-TRUE Finding (field 0), then the field-3 Finding that
correct1 must not be empty when choice1 is not empty. -/
theorem C2_amended_two_findings :
    validateCsvString "id,choice1,correct1\n1,yes," =
      [⟨2, 0, "[Row] At least one correct\x7bx\x7d field must be TRUE"⟩,
       ⟨2, 3, "[correct1] Field must not be empty when choice1 is not empty"⟩] := rfl

/-- C3: the claim says the correctness-flag and pairing rules are never applied
to the header, the header being the first non-blank line even when blank lines
precede it.  The code guards these rules with the physical line index (`i > 0`)
rather than with a not-the-header test, so when a blank line precedes the
header, the header line itself receives correctness-flag Findings: on
`\nid,correct1\n1,TRUE` both Findings target line 2, which is the header, while
the same document without the leading blank line yields no Finding. -/
theorem C3_header_after_blank_gets_domain_checks :
    validateCsvString "\nid,correct1\n1,TRUE" =
      [⟨2, 2, "[correct1] Value must be either TRUE or FALSE"⟩,
       ⟨2, 0, "[Row] At least one correct\x7bx\x7d field must be TRUE"⟩] ∧
    validateCsvString "id,correct1\n1,TRUE" = [] :=
  ⟨rfl, rfl⟩

/-- C4, counterexample: a `choice1` column without a matching `correct1` column
(and symmetrically a `correct1` column without `choice1`) produces no Finding at
all, so the unmatched-pair situation is not "checked as a rule and reported" as
the claim states. -/
theorem C4_counterexample_unmatched_pair_silent :
    validateCsvString "id,choice1\nx,yes" = [] ∧
    validateCsvString "id,correct1\nx,TRUE" = [] :=
  ⟨rfl, rfl⟩

/-- C4, amended: an unmatched `choice<N>` or `correct<N>` column is silently
skipped by the pairing rule (no Finding is emitted about the unmatched pair),
and for every `N` with both columns present the mutual non-blankness
requirement is enforced on data rows in both directions, reported against the
missing field's index and named after the other column. -/
theorem C4_amended_pairing_only_when_both :
    (∀ (i : Nat) (row : List (List Char)),
        choicePairFindings (buildSchema ["id".data, "choice1".data]) i row = [] ∧
        correctPairFindings (buildSchema ["id".data, "correct1".data]) i row = []) ∧
    validateCsvString "id,choice1,correct1\na,yes," =
      [⟨2, 0, "[Row] At least one correct\x7bx\x7d field must be TRUE"⟩,
       ⟨2, 3, "[correct1] Field must not be empty when choice1 is not empty"⟩] ∧
    validateCsvString "id,choice1,correct1\na,,TRUE" =
      [⟨2, 2, "[choice1] Field must not be empty when correct1 is not empty"⟩] := by
  refine ⟨fun i row => ⟨?_, ?_⟩, rfl, rfl⟩
  · unfold choicePairFindings
    split <;> rfl
  · unfold correctPairFindings
    split <;> rfl

/-- C5, counterexample: on the line `a"b` the unescaped quote is not
accumulated into the field value as the claim states; the parsed value is `ab`,
not `a"b`. -/
theorem C5_counterexample_quote_dropped :
    (parseCsvLineWithErrors "a\"b".data []).row = [['a', 'b']] ∧
    (parseCsvLineWithErrors "a\"b".data []).row ≠ [['a', '"', 'b']] :=
  ⟨rfl, by decide⟩

/-- C5, amended: a quote met in an unquoted field at any position other than the
first character of an as-yet-empty field is reported as an unescaped-quote
error, parsing continues without aborting and a complete row is returned, but
the quote character is skipped (it does not enter the parsed field value; it
remains in the raw `originalFields` substring). -/
theorem C5_amended_quote_reported_and_skipped :
    (parseCsvLineWithErrors "a\"b".data []).parseErrors
        = [("[#1] Unescaped quote found in unquoted field", 1)] ∧
    (parseCsvLineWithErrors "a\"b".data []).row = [['a', 'b']] ∧
    (parseCsvLineWithErrors "a\"b".data []).originalFields = [['a', '"', 'b']] ∧
    (parseCsvLineWithErrors "a\"b".data []).quotedFields = [false] :=
  ⟨rfl, rfl, rfl, rfl⟩

/-- C6: for every input line and header, the tokenizer returns exactly one more
field than the number of commas outside quoted regions of the line, independent
of any parse errors; in particular it is total and always returns at least one
field value. -/
theorem C6_row_length :
    ∀ (line : List Char) (header : List (List Char)),
      (parseCsvLineWithErrors line header).row.length = countUnquotedCommas line + 1 := by
  intro line header
  have h := tokLoop_row_length line header line 0 0 false false [] 0
  simpa [parseCsvLineWithErrors, countUnquotedCommas] using h

/-- C7: for every input line and header, joining the raw `originalFields`
substrings with single commas reproduces the original line exactly. -/
theorem C7_roundtrip :
    ∀ (line : List Char) (header : List (List Char)),
      List.intercalate [','] (parseCsvLineWithErrors line header).originalFields = line := by
  intro line header
  rw [← joinComma_eq_intercalate]
  have h := tokLoop_join_originalFields line header line 0 0 false false [] 0 rfl (Nat.le_refl 0)
  simpa [parseCsvLineWithErrors] using h

/-- C8: the validator is a total function; it returns the empty Finding list on
the empty document and on a clean header-only document, and malformed input
produces Findings rather than a failure, as on the header-only document `a"b`
whose quoting defect surfaces as a single Finding. -/
theorem C8_total_validator :
    validateCsvString "" = [] ∧
    validateCsvString "id,choice1,correct1" = [] ∧
    validateCsvString "a\"b" = [⟨1, 1, "[#1] Unescaped quote found in unquoted field"⟩] :=
  ⟨rfl, rfl, rfl⟩

/-- C9: for every document the Findings are ordered by nondecreasing 1-based
physical line number; and on a document with interspersed blank lines the
Findings keep the physical numbering (lines 3 and 5), with the within-line step
order of the validator (correctness flags before pairing on line 3; row-count
before tokenizer parse errors on line 5), while the blank lines 2 and 4
produce no Findings. -/
theorem C9_findings_ordered :
    (∀ s : String, (validateCsvString s).Pairwise (fun a b => a.line ≤ b.line)) ∧
    validateCsvString "id,choice1,correct1\n\n1,yes,\n\nx\"y,yes,TRUE,z" =
      [⟨3, 0, "[Row] At least one correct\x7bx\x7d field must be TRUE"⟩,
       ⟨3, 3, "[correct1] Field must not be empty when choice1 is not empty"⟩,
       ⟨5, 0, "[Row] Inconsistent number of fields: expected 3, got 4"⟩,
       ⟨5, 1, "[id] Unescaped quote found in unquoted field"⟩] :=
  ⟨fun _ => processLines_pairwise_line _ none 0, rfl⟩

/-- C10: the correctness-flag rule and both pairing rules read row fields with
an empty-string default, so they are invariant under padding a row with empty
fields up to any length — missing fields behave exactly like empty ones — and a
row shorter than the header whose existing correct fields are all blank
receives both the field-count Finding and the row-level at-least-one-TRUE
Finding (and, with a non-blank choice, the pairing Finding against the missing
correct field). -/
theorem C10_short_rows_padded :
    (∀ (sch : Schema) (i : Nat) (row : List (List Char)) (k : Nat),
      correctnessFindings sch i (row ++ List.replicate k []) = correctnessFindings sch i row ∧
      choicePairFindings sch i (row ++ List.replicate k []) = choicePairFindings sch i row ∧
      correctPairFindings sch i (row ++ List.replicate k []) = correctPairFindings sch i row) ∧
    validateCsvString "id,correct1\n1" =
      [⟨2, 0, "[Row] Inconsistent number of fields: expected 2, got 1"⟩,
       ⟨2, 0, "[Row] At least one correct\x7bx\x7d field must be TRUE"⟩] ∧
    validateCsvString "id,choice1,correct1\n1,yes" =
      [⟨2, 0, "[Row] Inconsistent number of fields: expected 3, got 2"⟩,
       ⟨2, 0, "[Row] At least one correct\x7bx\x7d field must be TRUE"⟩,
       ⟨2, 3, "[correct1] Field must not be empty when choice1 is not empty"⟩] := by
  refine ⟨fun sch i row k => ⟨?_, ?_, ?_⟩, rfl, rfl⟩
  · simp only [correctnessFindings, getD_append_replicate_nil]
  · simp only [choicePairFindings, getD_append_replicate_nil]
  · simp only [correctPairFindings, getD_append_replicate_nil]

end QuestionPoolCsv
